import Mathlib

/-!
Verification of the DMNTK decision-model toolkit core against its design
specification.

The development shallowly embeds the Rust sources:

* `src/model/src/validator.rs` — the type-graph validator (`validate`,
  `ModelValidator`, `check_recursive_item_definitions`,
  `check_recursive_item_definition`), including a faithful model of
  petgraph: node indices are positions in an append-only node list, and
  `add_node` always appends a fresh node.
* `src/server/src/tck/handlers.rs` — the TCK evaluation handlers
  (`post_tck_evaluate`, `do_evaluate_tck`, `process_input_node_dto_list`,
  `prepare_output_node_dto`) with the external workspace evaluator and the
  DTO conversions abstracted as function parameters.
* The decision-table evaluator and decision evaluator of the
  `model-evaluator` crate are declared in `src/model-evaluator/src/lib.rs`
  but their module sources are not part of the surveyed excerpt; they are
  modelled from the specification (sections 4.4 and 4.5) and marked as such
  in their doc comments.

Machine integers do not occur on the verified paths; FEEL numbers are
modelled as integers since no verified claim depends on decimal arithmetic.
-/

/-! ## FEEL values and contexts

Modelled from the specification, section 3: the FEEL runtime `Value` is a
variant over Null, Boolean, Number, String, date/time/duration, lists and
contexts. It is produced by the external FEEL evaluator and re-packaged by
the core. -/

/-- FEEL runtime value (specification, section 3). Temporal values are kept
as opaque payload strings; numbers are modelled as integers. -/
inductive Value where
  | null : Value
  | boolean (b : Bool) : Value
  | number (n : Int) : Value
  | string (s : String) : Value
  | temporal (repr : String) : Value
  | list (items : List Value) : Value
  | context (entries : List (String × Value)) : Value

/-- FEEL context: a mapping from variable name to value. Entries added
later shadow earlier ones, mirroring map insertion overwriting the
previous binding for the same key. -/
def FeelContext : Type := List (String × Value)

/-- Adds a binding to the context, overwriting any earlier binding of the
same name (the new entry shadows older ones under `getEntry`). Mirrors
`FeelContext::set_entry`. -/
def setEntry (ctx : FeelContext) (name : String) (value : Value) : FeelContext :=
  (name, value) :: ctx

/-- Looks up the current binding of a name in the context. -/
def getEntry (ctx : FeelContext) (name : String) : Option Value :=
  ((ctx : List (String × Value)).find? (fun e => e.1 == name)).map (fun e => e.2)

/-- Errors of the toolkit, mirroring `DmntkError` carriers relevant to the
verified paths: the aggregate item-definition cycle error raised by the
validator, the missing-attribute error raised by the TCK handler, the
hit-policy error of the decision-table evaluator, and a catch-all for
errors produced by the external collaborators (DTO conversions, the FEEL
evaluator, the workspace). -/
inductive DmntkError where
  | itemDefinitionsCycle : DmntkError
  | missingAttribute (attributeName : String) : DmntkError
  | hitPolicyError (detail : String) : DmntkError
  | typeError (detail : String) : DmntkError
  | externalError (detail : String) : DmntkError
deriving DecidableEq

/-! ## Type-graph validator (src/model/src/validator.rs)

The validator builds a petgraph `DiGraph` while traversing the item
definitions and then runs a global cycle check. petgraph node indices are
allocation positions: `add_node` always appends a fresh node and returns
its position, it never deduplicates labels. The `HashMap` from names to
node indices is modelled as an association list where a later insert
shadows earlier entries. -/

/-- Item definition (specification, section 3): a name, an optional type
reference naming another item definition, and an ordered sequence of
nested component item definitions. -/
inductive ItemDefinition where
  | mk (name : String) (typeRef : Option String) (itemComponents : List ItemDefinition)

/-- Name accessor, mirroring the `NamedElement::name` trait method. -/
def ItemDefinition.name : ItemDefinition → String
  | .mk n _ _ => n

/-- Type-reference accessor. -/
def ItemDefinition.typeRef : ItemDefinition → Option String
  | .mk _ t _ => t

/-- Component accessor. -/
def ItemDefinition.itemComponents : ItemDefinition → List ItemDefinition
  | .mk _ _ cs => cs

/-- Decision model definitions; only the item definitions are relevant to
the validator. -/
structure Definitions where
  itemDefinitions : List ItemDefinition

/-- Validator state, mirroring `struct ModelValidator`: the directed graph
for item-definition type references (node labels in allocation order plus
an edge list over node indices) and the name-to-node-index map. -/
structure ModelValidator where
  graphNodes : List String
  graphEdges : List (Nat × Nat)
  itemDefinitionIndex : List (String × Nat)

/-- Creates a new validator with an empty graph, mirroring
`ModelValidator::new`. -/
def ModelValidator.new : ModelValidator :=
  { graphNodes := [], graphEdges := [], itemDefinitionIndex := [] }

/-- Appends a fresh node with the given label and returns its index,
mirroring petgraph `DiGraph::add_node` (which never deduplicates). -/
def ModelValidator.addNode (mv : ModelValidator) (label : String) :
    ModelValidator × Nat :=
  ({ mv with graphNodes := mv.graphNodes ++ [label] }, mv.graphNodes.length)

/-- Appends a directed edge, mirroring petgraph `DiGraph::add_edge`. -/
def ModelValidator.addEdge (mv : ModelValidator) (a b : Nat) : ModelValidator :=
  { mv with graphEdges := mv.graphEdges ++ [(a, b)] }

/-- Map lookup: the most recent insert for a key wins, mirroring
`HashMap::get` after possibly repeated `insert`s. -/
def indexGet (index : List (String × Nat)) (key : String) : Option Nat :=
  (index.find? (fun e => e.1 == key)).map (fun e => e.2)

/-- Map insert: prepending shadows any earlier entry for the same key under
`indexGet`, mirroring `HashMap::insert` overwriting. -/
def indexInsert (index : List (String × Nat)) (key : String) (value : Nat) :
    List (String × Nat) :=
  (key, value) :: index

mutual

/-- Traverses one item definition and registers its dependencies, mirroring
`ModelValidator::check_recursive_item_definition`: a type reference adds an
edge to the node the index maps the referenced name to (creating a fresh
node for the name on first sight), and each nested component gets a fresh
node named by the dotted path, an edge from the parent, and a recursive
traversal. Component nodes are not inserted into the index, exactly as in
the source. -/
def checkRecursiveItemDefinition (mv : ModelValidator) (parentName : String)
    (parentNodeIndex : Nat) : ItemDefinition → ModelValidator
  | .mk _ typeRef comps =>
    let mv1 :=
      match typeRef with
      | some tr =>
        match indexGet mv.itemDefinitionIndex tr with
        | some refNodeIndex => mv.addEdge parentNodeIndex refNodeIndex
        | none =>
          let p := mv.addNode tr
          let mv2 := { p.1 with
            itemDefinitionIndex := indexInsert p.1.itemDefinitionIndex tr p.2 }
          mv2.addEdge parentNodeIndex p.2
      | none => mv
    checkComponents mv1 parentName parentNodeIndex comps

/-- Traversal of the component list inside
`check_recursive_item_definition`. -/
def checkComponents (mv : ModelValidator) (parentName : String)
    (parentNodeIndex : Nat) : List ItemDefinition → ModelValidator
  | [] => mv
  | c :: rest =>
    let componentName := parentName ++ "." ++ c.name
    let p := mv.addNode componentName
    let mv2 := p.1.addEdge parentNodeIndex p.2
    let mv3 := checkRecursiveItemDefinition mv2 componentName p.2 c
    checkComponents mv3 parentName parentNodeIndex rest

end

/-- Loop body of `check_recursive_item_definitions`: for every top-level
item definition, unconditionally add a fresh node for its name, insert it
into the index (overwriting any node the name may already map to), and
traverse the definition. -/
def checkDefinitionsLoop (mv : ModelValidator) :
    List ItemDefinition → ModelValidator
  | [] => mv
  | d :: rest =>
    let p := mv.addNode d.name
    let mv2 := { p.1 with
      itemDefinitionIndex := indexInsert p.1.itemDefinitionIndex d.name p.2 }
    let mv3 := checkRecursiveItemDefinition mv2 d.name p.2 d
    checkDefinitionsLoop mv3 rest

/-- Bounded reachability over an edge list: `reachableWithin edges fuel a b`
holds when there is a directed path from `a` to `b` of length at most
`fuel`. -/
def reachableWithin (edges : List (Nat × Nat)) : Nat → Nat → Nat → Bool
  | 0, a, b => a == b
  | fuel + 1, a, b =>
    a == b || edges.any (fun e => e.1 == a && reachableWithin edges fuel e.2 b)

/-- Directed-cycle test, mirroring petgraph `is_cyclic_directed`: the graph
has a cycle exactly when some edge `(v, w)` admits a path from `w` back to
`v`; any such returning path can be taken of length at most the node count,
so the fuel bound is complete. -/
def isCyclicDirected (numNodes : Nat) (edges : List (Nat × Nat)) : Bool :=
  edges.any (fun e => reachableWithin edges numNodes e.2 e.1)

/-- Mirrors `ModelValidator::check_recursive_item_definitions`: traverse all
top-level item definitions building the graph, then fail with the single
aggregate cycle error when the built graph is cyclic. -/
def ModelValidator.checkRecursiveItemDefinitions (mv : ModelValidator)
    (definitions : Definitions) : Except DmntkError ModelValidator :=
  let mv1 := checkDefinitionsLoop mv definitions.itemDefinitions
  if isCyclicDirected mv1.graphNodes.length mv1.graphEdges then
    Except.error DmntkError.itemDefinitionsCycle
  else
    Except.ok mv1

/-- Mirrors `ModelValidator::validate`: run the recursive-item-definition
check and return the definitions unchanged on success. -/
def ModelValidator.validate (mv : ModelValidator) (definitions : Definitions) :
    Except DmntkError Definitions :=
  match mv.checkRecursiveItemDefinitions definitions with
  | Except.ok _ => Except.ok definitions
  | Except.error e => Except.error e

/-- Mirrors the free function `validate`: create a fresh validator and
validate the definitions with it. -/
def validate (definitions : Definitions) : Except DmntkError Definitions :=
  ModelValidator.new.validate definitions

/-! ## Specification-side reference graph

These definitions follow the words of the specification (sections 3 and
4.1), not the source: the item-definition reference graph has one node per
name (nested component names qualified by dotted path), a type-reference
edge from each definition to the name its type reference targets, and a
component edge from each definition to each of its nested components. They
exist to compare the validator against the specified graph. -/

mutual

/-- Edges contributed by one item definition per the specification:
a type-reference edge to the referenced name plus the component edges. -/
def specItemEdges (parentName : String) : ItemDefinition → List (String × String)
  | .mk _ typeRef comps =>
    (match typeRef with
     | some tr => [(parentName, tr)]
     | none => []) ++ specComponentEdges parentName comps

/-- Component edges per the specification: an edge from the parent to each
dotted component name, plus the edges of the component subtree. -/
def specComponentEdges (parentName : String) :
    List ItemDefinition → List (String × String)
  | [] => []
  | c :: rest =>
    (parentName, parentName ++ "." ++ c.name) ::
      (specItemEdges (parentName ++ "." ++ c.name) c ++
        specComponentEdges parentName rest)

end

/-- The item-definition reference graph of a model per the specification:
type-reference edges plus component edges over all top-level item
definitions. -/
def specRefGraph (definitions : Definitions) : List (String × String) :=
  definitions.itemDefinitions.foldr (fun d acc => specItemEdges d.name d ++ acc) []

/-- Bounded reachability over name-labelled edges. -/
def specReachableWithin (edges : List (String × String)) :
    Nat → String → String → Bool
  | 0, a, b => a == b
  | fuel + 1, a, b =>
    a == b || edges.any (fun e => e.1 == a && specReachableWithin edges fuel e.2 b)

/-- Cyclicity of the specification-side reference graph: some edge closes a
directed cycle. -/
def specGraphCyclic (edges : List (String × String)) : Bool :=
  edges.any (fun e => specReachableWithin edges edges.length e.2 e.1)

/-! ## Concrete model for the cycle scenario

Two top-level item definitions referencing each other through their type
references, the scenario of the specification (section 8). -/

/-- Item definition A with type reference B and no components. -/
def itemDefinitionA : ItemDefinition := .mk "A" (some "B") []

/-- Item definition B with type reference A and no components. -/
def itemDefinitionB : ItemDefinition := .mk "B" (some "A") []

/-- The model holding the two mutually referencing item definitions. -/
def mutuallyRecursiveDefs : Definitions :=
  { itemDefinitions := [itemDefinitionA, itemDefinitionB] }

/-- C1: the specification demands that validation fail exactly on cyclic
item-definition reference graphs with no false negatives, but the code
misses the two-definition type-reference cycle A to B to A: the reference
graph of the model is cyclic, yet `validate` succeeds. The cause is in
`check_recursive_item_definitions`: it calls `add_node` unconditionally for
each top-level definition, so a name first seen as a forward type-reference
target gets a second, fresh node and the index is overwritten; the edge
added toward the first node no longer connects to the outgoing edges of the
second, splitting every cycle that spans two or more top-level
definitions. -/
theorem validate_misses_type_reference_cycle :
    specGraphCyclic (specRefGraph mutuallyRecursiveDefs) = true ∧
    validate mutuallyRecursiveDefs = Except.ok mutuallyRecursiveDefs :=
  ⟨rfl, rfl⟩

/-- C2: the specification scenario says that item definitions with
`A.type_ref = "B"` and `B.type_ref = "A"` must fail validation with a cycle
error, but `validate` accepts exactly this model: the duplicated node for
the forward-referenced name disconnects the cycle in the graph the
validator builds, so `is_cyclic_directed` sees an acyclic graph. -/
theorem validate_accepts_mutual_type_references :
    validate mutuallyRecursiveDefs = Except.ok mutuallyRecursiveDefs :=
  rfl

/-- C3: `validate` has exactly two outcomes: it returns the given
definitions unchanged on success, and its only possible error is the single
aggregate item-definitions-cycle error. -/
theorem validate_outcomes (definitions : Definitions) :
    validate definitions = Except.ok definitions ∨
    validate definitions = Except.error DmntkError.itemDefinitionsCycle := by
  unfold validate ModelValidator.validate ModelValidator.checkRecursiveItemDefinitions
  by_cases h :
      isCyclicDirected
        (checkDefinitionsLoop ModelValidator.new definitions.itemDefinitions).graphNodes.length
        (checkDefinitionsLoop ModelValidator.new definitions.itemDefinitions).graphEdges
  · right
    simp [h]
  · left
    simp [h]

/-! ## TCK evaluation handlers (src/server/src/tck/handlers.rs)

The external collaborators are abstracted as function parameters: the DTO
value type `VD` stands for `ValueDto` (owned by the FEEL crate), `convert`
for `Value::try_from(&ValueDto)`, `convertOut` for
`ValueDto::try_from(&Value)` (its failure modelled as `none`), and
`evaluate` for `Workspaces::evaluate`. -/

/-- Input node of a TCK request: a name and a DTO value, mirroring
`InputNodeDto`. -/
structure InputNodeDto (VD : Type) where
  name : String
  value : VD

/-- Output node of a TCK response, mirroring `OutputNodeDto`: the value is
optional. -/
structure OutputNodeDto (VD : Type) where
  value : Option VD

/-- Error detail carried in a TCK response, mirroring `TckErrorDto`. -/
structure TckErrorDto where
  detail : String
deriving DecidableEq

/-- Result envelope of a TCK response, mirroring `TckResultDto`: an
optional data payload and a list of error details. -/
structure TckResultDto (T : Type) where
  data : Option T
  errors : List TckErrorDto

/-- Mirrors `TckResultDto::data`: a result with the payload present and no
errors. -/
def TckResultDto.mkData {T : Type} (d : T) : TckResultDto T :=
  { data := some d, errors := [] }

/-- Mirrors `TckResultDto::error`: a result with no payload and a single
error detail rendered from the error. -/
def TckResultDto.mkError {T : Type} (detail : String) : TckResultDto T :=
  { data := none, errors := [{ detail := detail }] }

/-- Rendering of errors to the detail string of a response, standing for
the `Display` implementation the handler formats errors with. -/
def DmntkError.display : DmntkError → String
  | .itemDefinitionsCycle => "item definitions form a cycle"
  | .missingAttribute attributeName => "missing attribute " ++ attributeName
  | .hitPolicyError detail => "hit policy error: " ++ detail
  | .typeError detail => "type error: " ++ detail
  | .externalError detail => detail

/-- Parameters of a TCK evaluation request, mirroring `TckEvaluateParams`:
both attributes are optional in the wire format. -/
structure TckEvaluateParams (VD : Type) where
  invocablePath : Option String
  inputValues : Option (List (InputNodeDto VD))

/-- Loop of `process_input_node_dto_list`: convert each input value in
order, binding it into the context (overwriting an earlier binding of the
same name); the first conversion failure aborts with that error. -/
def processLoop {VD : Type} (convert : VD → Except DmntkError Value)
    (ctx : FeelContext) : List (InputNodeDto VD) → Except DmntkError FeelContext
  | [] => Except.ok ctx
  | item :: rest =>
    match convert item.value with
    | Except.ok v => processLoop convert (setEntry ctx item.name v) rest
    | Except.error e => Except.error e

/-- Mirrors `process_input_node_dto_list`: fold the ordered input list into
a fresh FEEL context. -/
def processInputNodeDtoList {VD : Type} (convert : VD → Except DmntkError Value)
    (inputValues : List (InputNodeDto VD)) : Except DmntkError FeelContext :=
  processLoop convert [] inputValues

/-- First conversion failure in an ordered input list, if any: the error
`process_input_node_dto_list` aborts with. -/
def firstFailure {VD : Type} (convert : VD → Except DmntkError Value) :
    List (InputNodeDto VD) → Option DmntkError
  | [] => none
  | item :: rest =>
    match convert item.value with
    | Except.ok _ => firstFailure convert rest
    | Except.error e => some e

/-- Mirrors `prepare_output_node_dto`: convert the evaluated value to its
transfer representation; when the conversion fails the output node simply
has no value, it is not an error. -/
def prepareOutputNodeDto {VD : Type} (convertOut : Value → Option VD)
    (value : Value) : OutputNodeDto VD :=
  match convertOut value with
  | some valueDto => { value := some valueDto }
  | none => { value := none }

/-- Mirrors `do_evaluate_tck`: require the invocable path, then the input
list, convert the inputs into a FEEL context, evaluate the invocable, and
package the result. -/
def doEvaluateTck {VD : Type}
    (evaluate : String → FeelContext → Except DmntkError Value)
    (convert : VD → Except DmntkError Value) (convertOut : Value → Option VD)
    (params : TckEvaluateParams VD) : Except DmntkError (OutputNodeDto VD) :=
  match params.invocablePath with
  | some invocablePath =>
    match params.inputValues with
    | some inputValues =>
      match processInputNodeDtoList convert inputValues with
      | Except.ok inputData =>
        match evaluate invocablePath inputData with
        | Except.ok result => Except.ok (prepareOutputNodeDto convertOut result)
        | Except.error e => Except.error e
      | Except.error e => Except.error e
    | none => Except.error (DmntkError.missingAttribute "input")
  | none => Except.error (DmntkError.missingAttribute "invocable")

/-- Mirrors `post_tck_evaluate`: every branch answers with a JSON body, so
the transport-level result is always `ok` — a success wraps the output node
as the data payload, a failure wraps the rendered error as the single error
detail. -/
def postTckEvaluate {VD : Type}
    (evaluate : String → FeelContext → Except DmntkError Value)
    (convert : VD → Except DmntkError Value) (convertOut : Value → Option VD)
    (params : TckEvaluateParams VD) :
    Except String (TckResultDto (OutputNodeDto VD)) :=
  Except.ok
    (match doEvaluateTck evaluate convert convertOut params with
     | Except.ok response => TckResultDto.mkData response
     | Except.error reason => TckResultDto.mkError reason.display)

/-- C4: when the invocable-path attribute is absent the handler answers
with the missing-attribute error naming invocable, and when the path is
present but the input attribute is absent it answers with the
missing-attribute error naming input; in both cases the result is the same
for every workspace evaluator and every conversion, so nothing is
evaluated. -/
theorem do_evaluate_tck_missing_attribute {VD : Type}
    (evaluate : String → FeelContext → Except DmntkError Value)
    (convert : VD → Except DmntkError Value) (convertOut : Value → Option VD)
    (params : TckEvaluateParams VD) :
    (params.invocablePath = none →
      doEvaluateTck evaluate convert convertOut params =
        Except.error (DmntkError.missingAttribute "invocable")) ∧
    (∀ p, params.invocablePath = some p → params.inputValues = none →
      doEvaluateTck evaluate convert convertOut params =
        Except.error (DmntkError.missingAttribute "input")) := by
  constructor
  · intro h
    simp [doEvaluateTck, h]
  · intro p h1 h2
    simp [doEvaluateTck, h1, h2]

/-- Witness for C4 at concrete requests: one with no invocable path, one
with a path but no input list. -/
theorem do_evaluate_tck_missing_attribute_witness :
    @doEvaluateTck Unit (fun _ _ => Except.ok Value.null)
        (fun _ => Except.ok Value.null) (fun _ => none)
        { invocablePath := none, inputValues := none } =
      Except.error (DmntkError.missingAttribute "invocable") ∧
    @doEvaluateTck Unit (fun _ _ => Except.ok Value.null)
        (fun _ => Except.ok Value.null) (fun _ => none)
        { invocablePath := some "model/decision", inputValues := none } =
      Except.error (DmntkError.missingAttribute "input") :=
  ⟨(do_evaluate_tck_missing_attribute _ _ _ _).1 rfl,
   (do_evaluate_tck_missing_attribute _ _ _ _).2 "model/decision" rfl rfl⟩

/-- C5: the handler always answers at the transport level, and the body
carries either a data payload with an empty error list or no payload and
exactly one error detail. -/
theorem post_tck_evaluate_response_shape {VD : Type}
    (evaluate : String → FeelContext → Except DmntkError Value)
    (convert : VD → Except DmntkError Value) (convertOut : Value → Option VD)
    (params : TckEvaluateParams VD) :
    ∃ r, postTckEvaluate evaluate convert convertOut params = Except.ok r ∧
      ((∃ d, r.data = some d ∧ r.errors = []) ∨
       (r.data = none ∧ ∃ err, r.errors = [err])) := by
  unfold postTckEvaluate
  cases h : doEvaluateTck evaluate convert convertOut params with
  | ok response =>
    exact ⟨TckResultDto.mkData response, by simp [h], Or.inl ⟨response, rfl, rfl⟩⟩
  | error reason =>
    exact ⟨TckResultDto.mkError reason.display, by simp [h],
      Or.inr ⟨rfl, { detail := reason.display }, rfl⟩⟩

/-- Helper for C9: after a successful run of the conversion loop, a name is
bound to the converted value of the last input entry carrying that name, or
keeps its binding from the starting context when no entry carries it. -/
theorem processLoop_getEntry {VD : Type} (convert : VD → Except DmntkError Value)
    (name : String) :
    ∀ (items : List (InputNodeDto VD)) (acc ctx : FeelContext),
      processLoop convert acc items = Except.ok ctx →
      getEntry ctx name =
        (match items.reverse.find? (fun i => i.name == name) with
         | some i => (convert i.value).toOption
         | none => getEntry acc name) := by
  intro items
  induction items with
  | nil =>
    intro acc ctx h
    simp only [processLoop, Except.ok.injEq] at h
    subst h
    simp
  | cons item rest ih =>
    intro acc ctx h
    simp only [processLoop] at h
    cases hc : convert item.value with
    | error e => simp [hc] at h
    | ok v =>
      rw [hc] at h
      have hrec := ih (setEntry acc item.name v) ctx h
      rw [List.reverse_cons, List.find?_append]
      cases hfind : rest.reverse.find? (fun i => i.name == name) with
      | some i =>
        rw [hfind] at hrec
        simpa using hrec
      | none =>
        rw [hfind] at hrec
        cases hname : (item.name == name) with
        | true =>
          simp only [Option.none_or, List.find?_cons, List.find?_nil, hname]
          rw [hrec]
          simp only [getEntry, setEntry, List.find?_cons]
          have : ((item.name, v).1 == name) = true := hname
          simp [this, hc, Except.toOption]
        | false =>
          simp only [Option.none_or, List.find?_cons, List.find?_nil, hname]
          rw [hrec]
          simp only [getEntry, setEntry, List.find?_cons]
          have : ((item.name, v).1 == name) = false := hname
          simp [this]

/-- Helper for C9: when the input list holds a failing conversion, the loop
aborts with the first such failure, whatever the accumulated context. -/
theorem processLoop_firstFailure {VD : Type}
    (convert : VD → Except DmntkError Value) :
    ∀ (items : List (InputNodeDto VD)) (acc : FeelContext) (e : DmntkError),
      firstFailure convert items = some e →
      processLoop convert acc items = Except.error e := by
  intro items
  induction items with
  | nil => intro acc e h; simp [firstFailure] at h
  | cons item rest ih =>
    intro acc e h
    simp only [firstFailure] at h
    cases hc : convert item.value with
    | error e0 =>
      rw [hc] at h
      simp only [Option.some.injEq] at h
      subst h
      simp [processLoop, hc]
    | ok v =>
      rw [hc] at h
      simp only [processLoop, hc]
      exact ih (setEntry acc item.name v) e h

/-- Helper for C9: a failing entry in the list forces a first failure. -/
theorem firstFailure_of_mem {VD : Type}
    (convert : VD → Except DmntkError Value) :
    ∀ (items : List (InputNodeDto VD)) (i : InputNodeDto VD),
      i ∈ items → (∃ e0, convert i.value = Except.error e0) →
      ∃ e, firstFailure convert items = some e := by
  intro items
  induction items with
  | nil => intro i h; simp at h
  | cons item rest ih =>
    intro i hmem ⟨e0, he0⟩
    cases hc : convert item.value with
    | error e1 => exact ⟨e1, by simp [firstFailure, hc]⟩
    | ok v =>
      rcases List.mem_cons.mp hmem with heq | htail
      · subst heq
        rw [hc] at he0
        exact absurd he0 (by simp)
      · have ⟨e, he⟩ := ih i htail ⟨e0, he0⟩
        exact ⟨e, by simp [firstFailure, hc, he]⟩

/-- C9: the FEEL context built from the ordered input list binds each name
to the converted value of the last entry carrying that name (later entries
overwrite earlier ones); and when some entry fails to convert, the handler
answers with the first conversion failure, for every workspace evaluator,
so no evaluation takes place. -/
theorem tck_input_binding_semantics {VD : Type}
    (convert : VD → Except DmntkError Value)
    (items : List (InputNodeDto VD)) :
    (∀ ctx, processInputNodeDtoList convert items = Except.ok ctx →
      ∀ name, getEntry ctx name =
        (items.reverse.find? (fun i => i.name == name)).bind
          (fun i => (convert i.value).toOption)) ∧
    (∀ i, i ∈ items → (∃ e0, convert i.value = Except.error e0) →
      ∃ e, firstFailure convert items = some e ∧
        ∀ (evaluate : String → FeelContext → Except DmntkError Value)
          (convertOut : Value → Option VD) (p : String),
          doEvaluateTck evaluate convert convertOut
            { invocablePath := some p, inputValues := some items } =
            Except.error e) := by
  constructor
  · intro ctx h name
    have := processLoop_getEntry convert name items [] ctx h
    rw [this]
    cases items.reverse.find? (fun i => i.name == name) with
    | some i => simp
    | none => simp [getEntry]
  · intro i hmem hfail
    have ⟨e, he⟩ := firstFailure_of_mem convert items i hmem hfail
    refine ⟨e, he, ?_⟩
    intro evaluate convertOut p
    have hloop := processLoop_firstFailure convert items [] e he
    simp [doEvaluateTck, processInputNodeDtoList, hloop]

/-- Witness for C9 at concrete inputs: two entries named x, the context
binds x to the later converted value; a list with a failing entry makes the
handler answer with that conversion error. -/
theorem tck_input_binding_semantics_witness :
    getEntry [("x", Value.number 2), ("x", Value.number 1)] "x" =
      ((([⟨"x", Value.number 1⟩, ⟨"x", Value.number 2⟩] :
          List (InputNodeDto Value)).reverse.find? (fun i => i.name == "x")).bind
        (fun i => (Except.ok i.value : Except DmntkError Value).toOption)) ∧
    (∃ e, firstFailure (fun _ => (Except.error (DmntkError.externalError "bad") :
            Except DmntkError Value)) [(⟨"y", Value.null⟩ : InputNodeDto Value)] = some e ∧
      doEvaluateTck (fun _ _ => Except.ok Value.null)
        (fun _ => Except.error (DmntkError.externalError "bad")) (fun _ => none)
        { invocablePath := some "inv", inputValues := some [⟨"y", Value.null⟩] } =
        Except.error e) := by
  constructor
  · exact (tck_input_binding_semantics (fun v => Except.ok v)
      [⟨"x", Value.number 1⟩, ⟨"x", Value.number 2⟩]).1
      [("x", Value.number 2), ("x", Value.number 1)] rfl "x"
  · obtain ⟨e, he, hall⟩ := (tck_input_binding_semantics
      (fun _ => (Except.error (DmntkError.externalError "bad") : Except DmntkError Value))
      [(⟨"y", Value.null⟩ : InputNodeDto Value)]).2
      ⟨"y", Value.null⟩ (List.mem_singleton.mpr rfl)
      ⟨DmntkError.externalError "bad", rfl⟩
    exact ⟨e, he, hall (fun _ _ => Except.ok Value.null) (fun _ => none) "inv"⟩

/-- C10: when evaluation succeeds but the resulting value has no transfer
representation, the handler still answers with a success envelope whose
output node carries no value, not with an error. -/
theorem tck_unconvertible_result_is_success {VD : Type}
    (evaluate : String → FeelContext → Except DmntkError Value)
    (convert : VD → Except DmntkError Value) (convertOut : Value → Option VD)
    (p : String) (items : List (InputNodeDto VD)) (ctx : FeelContext) (v : Value)
    (hproc : processInputNodeDtoList convert items = Except.ok ctx)
    (heval : evaluate p ctx = Except.ok v)
    (hconv : convertOut v = none) :
    postTckEvaluate evaluate convert convertOut
      { invocablePath := some p, inputValues := some items } =
      Except.ok (TckResultDto.mkData { value := none }) := by
  simp [postTckEvaluate, doEvaluateTck, hproc, heval, prepareOutputNodeDto, hconv]

/-- Witness for C10 at a concrete request whose evaluated value has no
transfer representation. -/
theorem tck_unconvertible_result_is_success_witness :
    @postTckEvaluate Unit (fun _ _ => Except.ok Value.null)
        (fun _ => Except.ok Value.null) (fun _ => none)
        { invocablePath := some "inv", inputValues := some [] } =
      Except.ok (TckResultDto.mkData { value := none }) :=
  @tck_unconvertible_result_is_success Unit (fun _ _ => Except.ok Value.null)
    (fun _ => Except.ok Value.null) (fun _ => none) "inv" [] [] Value.null
    rfl rfl rfl

/-! ## Decision-table evaluator

Modelled from the spec: the decision-table evaluator lives in the module
decision_table of the model-evaluator crate, which only declares and
re-exports it in `src/model-evaluator/src/lib.rs`; its source is not part
of the surveyed excerpt. The definitions below follow the specification,
sections 3 (DecisionTable, Rule), 4.4 (matching and hit-policy resolution)
and 6 (the standalone `build_decision_table_evaluator` entry point). The
external FEEL evaluator stays a parameter `feval` over an abstract
expression type `E`. -/

mutual

/-- Structural equality of FEEL values, used when matching entry values
against clause values and when comparing outputs under the any policy. -/
def Value.beq : Value → Value → Bool
  | .null, .null => true
  | .boolean a, .boolean b => a == b
  | .number a, .number b => a == b
  | .string a, .string b => a == b
  | .temporal a, .temporal b => a == b
  | .list a, .list b => Value.beqList a b
  | .context a, .context b => Value.beqEntries a b
  | _, _ => false

/-- Pointwise structural equality of value lists. -/
def Value.beqList : List Value → List Value → Bool
  | [], [] => true
  | a :: as, b :: bs => Value.beq a b && Value.beqList as bs
  | _, _ => false

/-- Pointwise structural equality of context entry lists. -/
def Value.beqEntries : List (String × Value) → List (String × Value) → Bool
  | [], [] => true
  | a :: as, b :: bs => a.1 == b.1 && Value.beq a.2 b.2 && Value.beqEntries as bs
  | _, _ => false

end

/-- Modelled from the spec (section 4.4): an evaluated input-entry value
matches the input-clause value by equality, or by membership when the
entry evaluates to a list of admissible values. -/
def valueMatches (entryValue clauseValue : Value) : Bool :=
  match entryValue with
  | .list items => items.any (fun v => Value.beq v clauseValue)
  | v => Value.beq v clauseValue

/-- Aggregator for the collect hit policy (specification, section 3). -/
inductive BuiltinAggregator where
  | list : BuiltinAggregator
  | sum : BuiltinAggregator
  | min : BuiltinAggregator
  | max : BuiltinAggregator
  | count : BuiltinAggregator

/-- The seven hit policies (specification, sections 3 and 4.4). -/
inductive HitPolicy where
  | unique : HitPolicy
  | any : HitPolicy
  | priority : HitPolicy
  | first : HitPolicy
  | ruleOrder : HitPolicy
  | outputOrder : HitPolicy
  | collect (aggregator : BuiltinAggregator) : HitPolicy

/-- Input clause: an expression plus optional enumerated allowed values
(specification, section 3). -/
structure InputClause (E : Type) where
  inputExpression : E
  allowedValues : Option (List Value)

/-- Output clause: a name plus optional allowed values, whose order
declares the output-value priority (specification, sections 3 and 4.4). -/
structure OutputClause (E : Type) where
  name : String
  allowedValues : Option (List Value)

/-- Input entry of a rule: an expression or the wildcard dash
(specification, section 3). -/
inductive InputEntry (E : Type) where
  | wildcard : InputEntry E
  | expression (e : E) : InputEntry E

/-- Rule: one input entry per input clause and one output entry per output
clause; output entries are evaluated only for matching rules
(specification, section 3). -/
structure Rule (E : Type) where
  inputEntries : List (InputEntry E)
  outputEntries : List E

/-- Decision table: ordered clauses, ordered rules, and a hit policy
(specification, section 3). -/
structure DecisionTable (E : Type) where
  hitPolicy : HitPolicy
  inputClauses : List (InputClause E)
  outputClauses : List (OutputClause E)
  rules : List (Rule E)

/-- Evaluates the input-clause expressions against the bound context,
yielding the current clause values; the first evaluation failure aborts. -/
def evalInputClauses {E : Type} (feval : E → FeelContext → Except DmntkError Value)
    (ctx : FeelContext) : List (InputClause E) → Except DmntkError (List Value)
  | [] => Except.ok []
  | c :: rest =>
    match feval c.inputExpression ctx with
    | Except.error e => Except.error e
    | Except.ok v =>
      match evalInputClauses feval ctx rest with
      | Except.error e => Except.error e
      | Except.ok vs => Except.ok (v :: vs)

/-- Match of one input entry against the current value of its clause: the
wildcard always matches, an expression is evaluated and compared. -/
def entryMatches {E : Type} (feval : E → FeelContext → Except DmntkError Value)
    (ctx : FeelContext) (clauseValue : Value) :
    InputEntry E → Except DmntkError Bool
  | .wildcard => Except.ok true
  | .expression e =>
    match feval e ctx with
    | Except.error err => Except.error err
    | Except.ok v => Except.ok (valueMatches v clauseValue)

/-- A rule matches only if all of its input entries match their clause
values pairwise; rules carry one entry per clause. -/
def inputEntriesMatch {E : Type} (feval : E → FeelContext → Except DmntkError Value)
    (ctx : FeelContext) : List Value → List (InputEntry E) → Except DmntkError Bool
  | _, [] => Except.ok true
  | [], _ :: _ => Except.ok true
  | v :: vs, en :: ens =>
    match entryMatches feval ctx v en with
    | Except.error e => Except.error e
    | Except.ok false => Except.ok false
    | Except.ok true => inputEntriesMatch feval ctx vs ens

/-- Collects the matching rules in table order; unmatched rules contribute
nothing, and an entry-evaluation failure is surfaced, not swallowed. -/
def collectMatching {E : Type} (feval : E → FeelContext → Except DmntkError Value)
    (ctx : FeelContext) (clauseValues : List Value) :
    List (Rule E) → Except DmntkError (List (Rule E))
  | [] => Except.ok []
  | r :: rest =>
    match inputEntriesMatch feval ctx clauseValues r.inputEntries with
    | Except.error e => Except.error e
    | Except.ok m =>
      match collectMatching feval ctx clauseValues rest with
      | Except.error e => Except.error e
      | Except.ok ms => Except.ok (if m then r :: ms else ms)

/-- The ordered list of rules of the table matching the bound context. -/
def matchedRules {E : Type} (feval : E → FeelContext → Except DmntkError Value)
    (t : DecisionTable E) (ctx : FeelContext) :
    Except DmntkError (List (Rule E)) :=
  match evalInputClauses feval ctx t.inputClauses with
  | Except.error e => Except.error e
  | Except.ok clauseValues => collectMatching feval ctx clauseValues t.rules

/-- Evaluates a list of output-entry expressions; the first failure
aborts. -/
def evalExprList {E : Type} (feval : E → FeelContext → Except DmntkError Value)
    (ctx : FeelContext) : List E → Except DmntkError (List Value)
  | [] => Except.ok []
  | e :: rest =>
    match feval e ctx with
    | Except.error err => Except.error err
    | Except.ok v =>
      match evalExprList feval ctx rest with
      | Except.error err => Except.error err
      | Except.ok vs => Except.ok (v :: vs)

/-- Output of one matched rule: its output entries are evaluated lazily,
only now that the rule matched; a single output clause yields the bare
value, several yield a context keyed by the output-clause names. -/
def evalRuleOutput {E : Type} (feval : E → FeelContext → Except DmntkError Value)
    (t : DecisionTable E) (ctx : FeelContext) (r : Rule E) :
    Except DmntkError Value :=
  match evalExprList feval ctx r.outputEntries with
  | Except.error e => Except.error e
  | Except.ok [v] => Except.ok v
  | Except.ok vs =>
    Except.ok (Value.context ((t.outputClauses.map (fun c => c.name)).zip vs))

/-- Outputs of a list of matched rules, in table order. -/
def evalRuleOutputs {E : Type} (feval : E → FeelContext → Except DmntkError Value)
    (t : DecisionTable E) (ctx : FeelContext) :
    List (Rule E) → Except DmntkError (List Value)
  | [] => Except.ok []
  | r :: rest =>
    match evalRuleOutput feval t ctx r with
    | Except.error e => Except.error e
    | Except.ok v =>
      match evalRuleOutputs feval t ctx rest with
      | Except.error e => Except.error e
      | Except.ok vs => Except.ok (v :: vs)

/-- Rank of an output value in the declared output-value priority ordering:
its index among the allowed values of the first output clause; values
outside the declared ordering rank last. -/
def outputPriorityRank {E : Type} (t : DecisionTable E) (v : Value) : Nat :=
  match t.outputClauses with
  | c :: _ =>
    match c.allowedValues with
    | some avs => (avs.findIdx? (fun a => Value.beq a v)).getD avs.length
    | none => 0
  | [] => 0

/-- Insertion of a ranked value into a rank-sorted list, keeping the table
order among equal ranks. -/
def insertByRank (p : Nat × Value) : List (Nat × Value) → List (Nat × Value)
  | [] => [p]
  | q :: rest => if p.1 < q.1 then p :: q :: rest else q :: insertByRank p rest

/-- Stable insertion sort by rank for the output-order policy. -/
def sortByRank : List (Nat × Value) → List (Nat × Value)
  | [] => []
  | p :: rest => insertByRank p (sortByRank rest)

/-- Numeric payloads of a value list; `none` when some value is not a
number, the error case of the numeric aggregators. -/
def numericValues : List Value → Option (List Int)
  | [] => some []
  | Value.number n :: rest => (numericValues rest).map (fun ns => n :: ns)
  | _ => none

/-- Modelled from the spec (section 4.4): hit-policy resolution over the
ordered matched rules — unique demands at most one match, any demands
identical outputs, priority picks the highest-ranked output, first picks
the first match, rule order lists outputs in table order, output order
lists them by declared priority, and collect applies the aggregator. Zero
matches yield Null for the single-value policies. -/
def evaluateDecisionTable {E : Type}
    (feval : E → FeelContext → Except DmntkError Value)
    (t : DecisionTable E) (ctx : FeelContext) : Except DmntkError Value :=
  match matchedRules feval t ctx with
  | Except.error e => Except.error e
  | Except.ok ms =>
    match t.hitPolicy with
    | HitPolicy.unique =>
      match ms with
      | [] => Except.ok Value.null
      | [r] => evalRuleOutput feval t ctx r
      | _ =>
        Except.error (DmntkError.hitPolicyError
          "multiple rules match the unique hit policy")
    | HitPolicy.any =>
      match ms with
      | [] => Except.ok Value.null
      | r :: rest =>
        match evalRuleOutput feval t ctx r with
        | Except.error e => Except.error e
        | Except.ok v =>
          match evalRuleOutputs feval t ctx rest with
          | Except.error e => Except.error e
          | Except.ok vs =>
            if vs.all (fun w => Value.beq v w) then Except.ok v
            else
              Except.error (DmntkError.hitPolicyError
                "divergent outputs under the any hit policy")
    | HitPolicy.priority =>
      match evalRuleOutputs feval t ctx ms with
      | Except.error e => Except.error e
      | Except.ok [] => Except.ok Value.null
      | Except.ok (v :: vs) =>
        Except.ok (vs.foldl
          (fun best w =>
            if outputPriorityRank t w < outputPriorityRank t best then w else best)
          v)
    | HitPolicy.first =>
      match ms with
      | [] => Except.ok Value.null
      | r :: _ => evalRuleOutput feval t ctx r
    | HitPolicy.ruleOrder =>
      match evalRuleOutputs feval t ctx ms with
      | Except.error e => Except.error e
      | Except.ok vs => Except.ok (Value.list vs)
    | HitPolicy.outputOrder =>
      match evalRuleOutputs feval t ctx ms with
      | Except.error e => Except.error e
      | Except.ok vs =>
        Except.ok (Value.list
          ((sortByRank (vs.map (fun v => (outputPriorityRank t v, v)))).map
            (fun p => p.2)))
    | HitPolicy.collect aggregator =>
      match evalRuleOutputs feval t ctx ms with
      | Except.error e => Except.error e
      | Except.ok vs =>
        match aggregator with
        | BuiltinAggregator.list => Except.ok (Value.list vs)
        | BuiltinAggregator.count => Except.ok (Value.number vs.length)
        | BuiltinAggregator.sum =>
          match numericValues vs with
          | some ns => Except.ok (Value.number (ns.foldl (fun a b => a + b) 0))
          | none =>
            Except.error (DmntkError.typeError
              "non-numeric output under the sum aggregator")
        | BuiltinAggregator.min =>
          match numericValues vs with
          | some [] => Except.ok Value.null
          | some (n :: ns) =>
            Except.ok (Value.number (ns.foldl (fun a b => if b < a then b else a) n))
          | none =>
            Except.error (DmntkError.typeError
              "non-numeric output under the min aggregator")
        | BuiltinAggregator.max =>
          match numericValues vs with
          | some [] => Except.ok Value.null
          | some (n :: ns) =>
            Except.ok (Value.number (ns.foldl (fun a b => if a < b then b else a) n))
          | none =>
            Except.error (DmntkError.typeError
              "non-numeric output under the max aggregator")

/-- Modelled from the spec (section 6): the reusable decision-table
evaluator closure built by the standalone entry point; the closure state is
the captured table definition. -/
structure DecisionTableEvaluator (E : Type) where
  table : DecisionTable E

/-- Mirrors the exported `build_decision_table_evaluator` entry point:
build the reusable evaluator closure from a table definition, independent
of a full model. -/
def build_decision_table_evaluator {E : Type} (t : DecisionTable E) :
    DecisionTableEvaluator E :=
  { table := t }

/-- Evaluation call on the evaluator closure: the call returns its result
together with the closure state as it stands after the call — the
evaluation reads the captured table and mutates nothing. -/
def DecisionTableEvaluator.evaluate {E : Type} (ev : DecisionTableEvaluator E)
    (feval : E → FeelContext → Except DmntkError Value) (ctx : FeelContext) :
    DecisionTableEvaluator E × Except DmntkError Value :=
  (ev, evaluateDecisionTable feval ev.table ctx)

/-- C6: for a table under the unique hit policy, once the matched rules are
determined, zero matches yield Null, exactly one match yields the output of
that rule, and more than one match fails with a hit-policy error. -/
theorem unique_hit_policy_invariant {E : Type}
    (feval : E → FeelContext → Except DmntkError Value)
    (t : DecisionTable E) (ctx : FeelContext)
    (hpol : t.hitPolicy = HitPolicy.unique)
    (ms : List (Rule E)) (hms : matchedRules feval t ctx = Except.ok ms) :
    (ms = [] → evaluateDecisionTable feval t ctx = Except.ok Value.null) ∧
    (∀ r, ms = [r] →
      evaluateDecisionTable feval t ctx = evalRuleOutput feval t ctx r) ∧
    (2 ≤ ms.length →
      evaluateDecisionTable feval t ctx =
        Except.error (DmntkError.hitPolicyError
          "multiple rules match the unique hit policy")) := by
  refine ⟨?_, ?_, ?_⟩
  · intro h
    subst h
    simp [evaluateDecisionTable, hms, hpol]
  · intro r h
    subst h
    simp [evaluateDecisionTable, hms, hpol]
  · intro h
    match ms, hms, h with
    | a :: b :: rest, hms, _ =>
      simp [evaluateDecisionTable, hms, hpol]

/-- Concrete single-rule table for the unique-hit-policy witness; the
abstract expression type is instantiated with values themselves. -/
def uniqueRule : Rule Value :=
  { inputEntries := [InputEntry.expression (Value.number 1)]
    outputEntries := [Value.string "single match"] }

/-- Concrete unique-hit-policy table with one input clause and one rule. -/
def uniqueTable : DecisionTable Value :=
  { hitPolicy := HitPolicy.unique
    inputClauses := [{ inputExpression := Value.number 1, allowedValues := none }]
    outputClauses := [{ name := "out", allowedValues := none }]
    rules := [uniqueRule] }

/-- Expression evaluator for the witness: an expression is already a value. -/
def constFeval : Value → FeelContext → Except DmntkError Value :=
  fun v _ => Except.ok v

/-- Witness for C6 at the concrete table: its single rule matches the empty
context and evaluation returns the output of that rule. -/
theorem unique_hit_policy_invariant_witness :
    matchedRules constFeval uniqueTable [] = Except.ok [uniqueRule] ∧
    evaluateDecisionTable constFeval uniqueTable [] =
      Except.ok (Value.string "single match") :=
  ⟨rfl,
   ((unique_hit_policy_invariant constFeval uniqueTable [] rfl
      [uniqueRule] rfl).2.1 uniqueRule rfl).trans rfl⟩

/-- C7: evaluating the evaluator built from a table twice on the same
context yields identical results — the second call runs on the closure
state returned by the first and produces the same value, and the state
after both calls is still the evaluator as built, so no state leaks across
calls. -/
theorem decision_table_evaluation_deterministic {E : Type}
    (feval : E → FeelContext → Except DmntkError Value)
    (t : DecisionTable E) (ctx : FeelContext) :
    (((build_decision_table_evaluator t).evaluate feval ctx).1.evaluate
        feval ctx).2 =
      ((build_decision_table_evaluator t).evaluate feval ctx).2 ∧
    (((build_decision_table_evaluator t).evaluate feval ctx).1.evaluate
        feval ctx).1 =
      build_decision_table_evaluator t :=
  ⟨rfl, rfl⟩

/-! ## Decision evaluation

Modelled from the spec: the decision evaluator lives in the module decision
of the model-evaluator crate, whose source is not part of the surveyed
excerpt; the definitions follow the specification, section 4.5 — evaluate
dependencies in order into the request context, then delegate the
boxed-expression body to the external FEEL evaluator. -/

/-- Boxed expressions for the modelled external evaluator: a literal value
or a variable reference. -/
inductive FeelExpr where
  | lit (v : Value) : FeelExpr
  | var (name : String) : FeelExpr

/-- Modelled from the spec (sections 1 and 9): the external FEEL evaluator
is a black box that, given a boxed expression plus a variable context,
returns a value; a literal such as the string foo bar evaluates to its
value regardless of the context, a variable to its current binding and to
Null when unbound. -/
def feelEval : FeelExpr → FeelContext → Except DmntkError Value
  | .lit v, _ => Except.ok v
  | .var n, ctx => Except.ok ((getEntry ctx n).getD Value.null)

/-- Decision invocable: a name, its declared dependencies, and a
boxed-expression body (specification, sections 3 and 4.5). -/
structure Decision (E : Type) where
  name : String
  dependencies : List String
  body : E

/-- Evaluates the declared dependencies in order, binding each produced
value into the context under its name; a failing dependency aborts the
request (specification, section 4.5). -/
def evalDependencies
    (evalDependency : String → FeelContext → Except DmntkError Value) :
    List String → FeelContext → Except DmntkError FeelContext
  | [], ctx => Except.ok ctx
  | n :: rest, ctx =>
    match evalDependency n ctx with
    | Except.error e => Except.error e
    | Except.ok v => evalDependencies evalDependency rest (setEntry ctx n v)

/-- Modelled from the spec (section 4.5): decision evaluation first
evaluates the dependency closure into the request context and then
delegates the boxed-expression body to the external FEEL evaluator with
the current context. -/
def evaluateDecision {E : Type}
    (feval : E → FeelContext → Except DmntkError Value)
    (evalDependency : String → FeelContext → Except DmntkError Value)
    (d : Decision E) (ctx : FeelContext) : Except DmntkError Value :=
  match evalDependencies evalDependency d.dependencies ctx with
  | Except.error e => Except.error e
  | Except.ok ctx1 => feval d.body ctx1

/-- The decision of the scenario: no declared dependencies and a literal
boxed-expression body holding the string foo bar. -/
def fooBarDecision : Decision FeelExpr :=
  { name := "Decision1"
    dependencies := []
    body := FeelExpr.lit (Value.string "foo bar") }

/-- C8: for every input context (and whatever the dependency evaluator,
since the decision declares no dependencies), evaluating the decision with
the literal boxed-expression body foo bar returns the string foo bar. -/
theorem foo_bar_decision_evaluates
    (evalDependency : String → FeelContext → Except DmntkError Value)
    (ctx : FeelContext) :
    evaluateDecision feelEval evalDependency fooBarDecision ctx =
      Except.ok (Value.string "foo bar") :=
  rfl
